import Mathlib

/-!
Verification of the display/editing core of the terminal editor.

Lines are modelled as rune sequences (`List Char`), mirroring the Go code's
pervasive `[]rune(line)` conversions; a document is a list of lines.  Cursor
coordinates are `Nat`: every assignment in the source clamps them to be
non-negative, so the negative-guard branches of the Go code are vacuous on
the modelled domain (they are noted where they occur).
-/

namespace TEd

/-- Logical line content as its sequence of runes, mirroring Go `[]rune(line)`. -/
abbrev Line := List Char

/-- A document: the editor's `lines` field. -/
abbrev Doc := List Line

/-! ## File loading and saving (openFile / NewEditor / persist)

`openFile` and `NewEditor` run `strings.ReplaceAll(content, "\r\n", "\n")`
and then `strings.Split(content, "\n")`; `persist` runs
`strings.Join(e.lines, "\n")`.  The three library calls are embedded below
with their standard semantics (left-to-right non-overlapping replacement,
split on every separator, interleaving join). -/

/-- Semantics of `strings.ReplaceAll(content, "\r\n", "\n")`. -/
def replaceCRLF : Line → Line
  | [] => []
  | [c] => [c]
  | c1 :: c2 :: rest =>
    if c1 = '\r' ∧ c2 = '\n' then '\n' :: replaceCRLF rest
    else c1 :: replaceCRLF (c2 :: rest)

/-- Semantics of `strings.Split(content, "\n")`. -/
def splitNL : Line → List Line
  | [] => [[]]
  | c :: rest =>
    if c = '\n' then [] :: splitNL rest
    else
      match splitNL rest with
      | [] => [[c]]
      | s :: ss => (c :: s) :: ss

/-- Semantics of `strings.Join(lines, "\n")`, used by `persist`. -/
def joinNL : List Line → Line
  | [] => []
  | [l] => l
  | l :: ls => l ++ '\n' :: joinNL ls

/-- Content-to-lines conversion performed by `openFile` (display.go) and
`NewEditor` (unnamed part_000): only `"\r\n"` is normalized before the split. -/
def loadLines (cs : Line) : List Line := splitNL (replaceCRLF cs)

/-- Modelled from the spec: the spec's claimed load normalization, in which
every `"\r\n"` and every lone `"\r"` becomes `"\n"` before splitting. -/
def specLoadLines (cs : Line) : List Line :=
  splitNL ((replaceCRLF cs).map (fun c => if c = '\r' then '\n' else c))

/-! ## Line wrapping (wrapLine, display.go lines 113-143) -/

/-- Semantics of Go `unicode.IsSpace`. -/
def goIsSpace (c : Char) : Bool :=
  let n := c.toNat
  (9 ≤ n ∧ n ≤ 13) ∨ n = 32 ∨ n = 0x85 ∨ n = 0xA0 ∨
  n = 0x1680 ∨ (0x2000 ≤ n ∧ n ≤ 0x200A) ∨ n = 0x2028 ∨ n = 0x2029 ∨
  n = 0x202F ∨ n = 0x205F ∨ n = 0x3000

/-- The per-rune width used by `wrapLine`: a tab advances to the next
multiple-of-4 stop of the running counter, other whitespace counts 1, and
every other rune counts `utf8.RuneLen(r)`, its UTF-8 byte length. -/
def goRuneWidth (cw : Nat) (r : Char) : Nat :=
  if r = '\t' then 4 - cw % 4
  else if goIsSpace r then 1
  else r.utf8Size

/-- The accumulation loop of `wrapLine`: `seg` is `runes[start:i]`, `cw` is
`currentWidth`.  On a split the new segment's counter starts at the width
computed for the splitting rune before the split (Go reuses `rw`). -/
def wrapAux (W : Nat) : List Char → Line → Nat → List Line
  | [], seg, _ => [seg]
  | r :: rest, seg, cw =>
    let rw := goRuneWidth cw r
    if W < cw + rw ∧ seg ≠ [] then seg :: wrapAux W rest [r] rw
    else wrapAux W rest (seg ++ [r]) (cw + rw)

/-- `wrapLine` (display.go): an empty line yields one empty segment. -/
def wrapLine (W : Nat) (line : Line) : List Line :=
  if line = [] then [[]] else wrapAux W line [] 0

/-- Modelled from the spec: display cell width of a rune — 2 for wide East
Asian glyphs, 1 otherwise (the claim's "display cell width"). -/
def specDisplayWidth (r : Char) : Nat :=
  let n := r.toNat
  if (0x1100 ≤ n ∧ n ≤ 0x115F) ∨ (0x2E80 ≤ n ∧ n ≤ 0x303E) ∨
     (0x3041 ≤ n ∧ n ≤ 0x33FF) ∨ (0x3400 ≤ n ∧ n ≤ 0x4DBF) ∨
     (0x4E00 ≤ n ∧ n ≤ 0x9FFF) ∨ (0xA000 ≤ n ∧ n ≤ 0xA4CF) ∨
     (0xAC00 ≤ n ∧ n ≤ 0xD7A3) ∨ (0xF900 ≤ n ∧ n ≤ 0xFAFF) ∨
     (0xFE30 ≤ n ∧ n ≤ 0xFE4F) ∨ (0xFF00 ≤ n ∧ n ≤ 0xFF60) ∨
     (0xFFE0 ≤ n ∧ n ≤ 0xFFE6) ∨ (0x20000 ≤ n ∧ n ≤ 0x2FFFD) ∨
     (0x30000 ≤ n ∧ n ≤ 0x3FFFD)
  then 2 else 1

/-- Modelled from the spec: the width rule claimed in C4 — tabs to the next
multiple-of-4 stop, every other rune its display cell width. -/
def specWidthFn (cw : Nat) (r : Char) : Nat :=
  if r = '\t' then 4 - cw % 4 else specDisplayWidth r

/-- Modelled from the spec: the claimed wrapping loop.  A new segment's
width counter restarts from segment-relative column 0, so its first rune's
width is recomputed with counter 0. -/
def specWrapAux (W : Nat) : List Char → Line → Nat → List Line
  | [], seg, _ => [seg]
  | r :: rest, seg, cw =>
    let rw := specWidthFn cw r
    if W < cw + rw ∧ seg ≠ [] then seg :: specWrapAux W rest [r] (specWidthFn 0 r)
    else specWrapAux W rest (seg ++ [r]) (cw + rw)

/-- Modelled from the spec: the wrapping function claim C4 describes. -/
def specWrapLine (W : Nat) (line : Line) : List Line :=
  if line = [] then [[]] else specWrapAux W line [] 0

/-- One step of the amended description of `wrapLine`, phrased as a left
fold over the runes carrying (closed segments, open segment, width counter). -/
def wrapStep (W : Nat) (st : List Line × Line × Nat) (r : Char) : List Line × Line × Nat :=
  let rw := goRuneWidth st.2.2 r
  if W < st.2.2 + rw ∧ st.2.1 ≠ [] then (st.1 ++ [st.2.1], [r], rw)
  else (st.1, st.2.1 ++ [r], st.2.2 + rw)

/-- The amended description of `wrapLine` as a fold. -/
def wrapFold (W : Nat) (line : Line) : List Line :=
  if line = [] then [[]]
  else
    let st := line.foldl (wrapStep W) ([], [], 0)
    st.1 ++ [st.2.1]

theorem wrapAux_join (W : Nat) (rest : List Char) :
    ∀ seg cw, (wrapAux W rest seg cw).flatten = seg ++ rest := by
  induction rest with
  | nil => intro seg cw; simp [wrapAux]
  | cons r rest ih =>
    intro seg cw
    simp only [wrapAux]
    split
    · simp [ih]
    · simp [ih]

theorem wrapFold_aux (W : Nat) (rest : List Char) :
    ∀ done seg cw,
      (let st := rest.foldl (wrapStep W) (done, seg, cw)
       st.1 ++ [st.2.1]) = done ++ wrapAux W rest seg cw := by
  induction rest with
  | nil => intro done seg cw; simp [wrapAux]
  | cons r rest ih =>
    intro done seg cw
    simp only [List.foldl_cons, wrapStep, wrapAux]
    split
    · simpa using ih (done ++ [seg]) [r] (goRuneWidth cw r)
    · exact ih done (seg ++ [r]) (cw + goRuneWidth cw r)

/-! ## Bracket matching (brackets.go) -/

/-- Result of a bracket-matching query (brackets.go `BracketPair`). -/
structure BracketPair where
  openLine : Nat
  openCol : Nat
  closeLine : Nat
  closeCol : Nat
deriving DecidableEq, Repr

/-- Outcome of scanning one line forward: either the matching close was
found at a column, or the line was exhausted with a new nesting counter. -/
inductive RowRes where
  | found (col : Nat)
  | cont (nesting : Nat)
deriving DecidableEq

/-- The inner column loop of `findClosingBracket`: scan `cs` (the runes from
column `col` on), incrementing on `op`, decrementing on `cl`, returning the
column where the counter reaches 0.  The Go counter is an int that starts at
1 and returns the moment it hits 0, so it never goes negative; `nesting = 1`
and a close rune is exactly the return case. -/
def scanRowF (op cl : Char) : List Char → Nat → Nat → RowRes
  | [], _, n => .cont n
  | c :: rest, col, n =>
    if c = op then scanRowF op cl rest (col + 1) (n + 1)
    else if c = cl then
      if n = 1 then .found col else scanRowF op cl rest (col + 1) (n - 1)
    else scanRowF op cl rest (col + 1) n

/-- The outer line loop of `findClosingBracket`: subsequent lines are
scanned from column 0, carrying the nesting counter. -/
def scanDocRows (op cl : Char) : List Line → Nat → Nat → Option (Nat × Nat)
  | [], _, _ => none
  | row :: rest, li, n =>
    match scanRowF op cl row 0 n with
    | .found c => some (li, c)
    | .cont m => scanDocRows op cl rest (li + 1) m

/-- `findClosingBracket` (brackets.go): forward scan from an opening bracket
at `(sl, sc)`, starting at column `sc + 1` with nesting counter 1. -/
def findClosingBracket (lines : Doc) (sl sc : Nat) (op cl : Char) : Option BracketPair :=
  if sl < lines.length then
    let row := lines.getD sl []
    if sc < row.length then
      match scanRowF op cl (row.drop (sc + 1)) (sc + 1) 1 with
      | .found c => some ⟨sl, sc, sl, c⟩
      | .cont n =>
        (scanDocRows op cl (lines.drop (sl + 1)) (sl + 1) n).map
          (fun q => ⟨sl, sc, q.1, q.2⟩)
    else none
  else none

/-- Result of the (fuel-driven) backward inner loop. -/
inductive BRes where
  | found (li co : Nat)
  | cont (lineIdx colIdx : Int) (nesting : Nat)

/-- The decrement-and-maybe-switch-line step at the bottom of the Go inner
loop: `colIdx--` followed by the `colIdx < 0 && lineIdx > 0` adjustment that
moves `lineIdx` up and resets `colIdx` to the end of that previous line.
(The Go `else break` branch of the adjustment is unreachable — `lineIdx > 0`
and `lineIdx < len(lines)` force the new index into range — and a break
there would hand the same pair back to the loop condition anyway.) -/
def bAdvance (lines : Doc) (lineIdx colIdx : Int) : Int × Int :=
  let colIdx2 := colIdx - 1
  if colIdx2 < 0 ∧ 0 < lineIdx then
    let lineIdx2 := lineIdx - 1
    if 0 ≤ lineIdx2 ∧ lineIdx2 < (lines.length : Int) then
      (lineIdx2, ((lines.getD lineIdx2.toNat []).length - 1 : Int))
    else (lineIdx2, colIdx2)
  else (lineIdx, colIdx2)

/-- The inner column loop of `findOpeningBracket`.  It is translated
exactly, including its quirk: when the column underflows mid-loop,
`bAdvance` moves `lineIdx` up and resets `colIdx` to the end of that
previous line while the loop continues to read runes from `runes`, the line
it entered the loop with.  The loop terminates because `(lineIdx, colIdx)`
decreases lexicographically; `fuel` is an upper bound on that measure, so it
never runs out when called with the bound computed in
`findOpeningBracket`. -/
def bInner (lines : Doc) (op cl : Char) (runes : Line) :
    Nat → Int → Int → Nat → BRes
  | 0, lineIdx, colIdx, n => .cont lineIdx colIdx n
  | fuel + 1, lineIdx, colIdx, n =>
    if colIdx < 0 then .cont lineIdx colIdx n
    else if h : colIdx.toNat < runes.length then
      let c := runes.get ⟨colIdx.toNat, h⟩
      if c = cl then
        let q := bAdvance lines lineIdx colIdx
        bInner lines op cl runes fuel q.1 q.2 (n + 1)
      else if c = op then
        if n = 1 then .found lineIdx.toNat colIdx.toNat
        else
          let q := bAdvance lines lineIdx colIdx
          bInner lines op cl runes fuel q.1 q.2 (n - 1)
      else
        let q := bAdvance lines lineIdx colIdx
        bInner lines op cl runes fuel q.1 q.2 n
    else .cont lineIdx colIdx n

/-- The outer loop of `findOpeningBracket`. -/
def bOuter (lines : Doc) (op cl : Char) (startLine startCol : Nat) :
    Nat → Int → Int → Nat → Option BracketPair
  | 0, _, _, _ => none
  | fuel + 1, lineIdx, colIdx, n =>
    if lineIdx < 0 then none
    else if h : lineIdx.toNat < lines.length then
      let runes := lines.get ⟨lineIdx.toNat, h⟩
      if colIdx < 0 then
        let lineIdx2 := lineIdx - 1
        let colIdx2 :=
          if 0 ≤ lineIdx2 ∧ lineIdx2 < (lines.length : Int) then
            ((lines.getD lineIdx2.toNat []).length - 1 : Int)
          else colIdx
        bOuter lines op cl startLine startCol fuel lineIdx2 colIdx2 n
      else
        match bInner lines op cl runes fuel lineIdx colIdx n with
        | .found li co => some ⟨li, co, startLine, startCol⟩
        | .cont lineIdx2 colIdx2 n2 =>
          let lineIdx3 := lineIdx2 - 1
          let colIdx3 :=
            if 0 ≤ lineIdx3 ∧ lineIdx3 < (lines.length : Int) then
              ((lines.getD lineIdx3.toNat []).length - 1 : Int)
            else colIdx2
          bOuter lines op cl startLine startCol fuel lineIdx3 colIdx3 n2
    else none

/-- Fuel bound for the backward scan: more than the total number of runes
plus two steps per line plus the start column. -/
def bFuel (lines : Doc) (startCol : Nat) : Nat :=
  (lines.map (fun l => l.length + 2)).sum + lines.length + startCol + 16

/-- `findOpeningBracket` (brackets.go): backward scan from a closing bracket
at `(sl, sc)`, starting at column `sc - 1` with nesting counter 1. -/
def findOpeningBracket (lines : Doc) (sl sc : Nat) (op cl : Char) : Option BracketPair :=
  if sl < lines.length then
    let row := lines.getD sl []
    if sc < row.length then
      bOuter lines op cl sl sc (bFuel lines sc) (sl : Int) ((sc : Int) - 1) 1
    else none
  else none

/-- `findMatchingBracket` (brackets.go): dispatch on the rune at the query
position (the Go code's two map lookups become a conditional chain). -/
def findMatchingBracket (lines : Doc) (l c : Nat) : Option BracketPair :=
  if l < lines.length then
    let row := lines.getD l []
    if c < row.length then
      let ch := row.getD c ' '
      if ch = '(' then findClosingBracket lines l c '(' ')'
      else if ch = '[' then findClosingBracket lines l c '[' ']'
      else if ch = '{' then findClosingBracket lines l c '{' '}'
      else if ch = ')' then findOpeningBracket lines l c '(' ')'
      else if ch = ']' then findOpeningBracket lines l c '[' ']'
      else if ch = '}' then findOpeningBracket lines l c '{' '}'
      else none
    else none
  else none

/-! Spec model of the forward scan (§4.5 of the spec): flatten the document
into the stream of positions strictly after the start, then run the nesting
counter over that stream. -/

/-- Positions `(line, column, rune)` of the runes of one line from a column. -/
def rowPositions (li : Nat) (cs : List Char) (c0 : Nat) : List (Nat × Nat × Char) :=
  (cs.enumFrom c0).map (fun p => (li, p.1, p.2))

/-- Modelled from the spec: all rune positions strictly after `(sl, sc)`, in
scan order, wrapping to following lines. -/
def docPositions (lines : Doc) (sl sc : Nat) : List (Nat × Nat × Char) :=
  rowPositions sl ((lines.getD sl []).drop (sc + 1)) (sc + 1) ++
    ((lines.drop (sl + 1)).enumFrom (sl + 1)).flatMap (fun p => rowPositions p.1 p.2 0)

/-- Modelled from the spec: the nesting-counter scan over a position stream,
starting from a given counter; returns the position where the counter
reaches 0 together with 0, or `none` with the final counter. -/
def specScan (op cl : Char) : List (Nat × Nat × Char) → Nat → Option (Nat × Nat) × Nat
  | [], n => (none, n)
  | p :: rest, n =>
    if p.2.2 = op then specScan op cl rest (n + 1)
    else if p.2.2 = cl then
      if n = 1 then (some (p.1, p.2.1), 0) else specScan op cl rest (n - 1)
    else specScan op cl rest n

/-- Modelled from the spec: forward bracket search as the spec describes it. -/
def specFindClose (lines : Doc) (sl sc : Nat) (op cl : Char) : Option BracketPair :=
  if sl < lines.length then
    if sc < (lines.getD sl []).length then
      (specScan op cl (docPositions lines sl sc) 1).1.map (fun q => ⟨sl, sc, q.1, q.2⟩)
    else none
  else none

/-! ## Editor state and editing operations (display.go, undo.go, canvas.go) -/

/-- An undo/redo snapshot (`EditorState` in undo.go). -/
structure Snap where
  lines : Doc
  cx : Nat
  cy : Nat
deriving DecidableEq, Repr

/-- The live editing context: the fields of Go's `Editor` that the verified
operations read or write.  Stacks grow at the head (Go appends at the end of
a slice and pops from the end).  Cursor/offset fields are `Nat`; every
assignment in the source clamps them non-negative, so the `< 0` guards in
the Go code are vacuous here and are noted where they occur. -/
structure EState where
  lines : Doc
  cx : Nat
  cy : Nat
  dirty : Bool
  undoStack : List Snap
  redoStack : List Snap
  selecting : Bool
  lineSelecting : Bool
  selectStartX : Nat
  selectStartY : Nat
  offsetY : Nat
  contentWidth : Nat
  contentHeight : Nat
  lastSearch : Line
  ctrlAState : Bool
  ctrlLState : Bool
deriving DecidableEq, Repr

/-- The buffer part of the state: line sequence and cursor. -/
def core (s : EState) : Doc × Nat × Nat := (s.lines, s.cx, s.cy)

/-- The invariant claimed for reachable states: a non-empty line sequence,
cursor line in range, cursor column at most the current line's rune length. -/
def BufferInvariant (s : EState) : Prop :=
  s.lines ≠ [] ∧ s.cy < s.lines.length ∧ s.cx ≤ (s.lines.getD s.cy []).length

instance (s : EState) : Decidable (BufferInvariant s) := by
  unfold BufferInvariant; infer_instance

/-- A state whose buffer part the defensive clamps leave unchanged. -/
abbrev Valid (s : EState) : Prop := BufferInvariant s

/-! `cursorDisplayPosition` (display.go lines 185-259).  The Go function
both repairs the cursor fields and returns the display triple; the repair
and the computation are split so the repair can be reused. -/

/-- The defensive repairs at the head of `cursorDisplayPosition`: clamp
`cy` into range, normalize an empty document, clamp `cx` to the line's rune
length (the `cy < 0` and `cx < 0` clamps are vacuous on `Nat`). -/
def cdpClamp (s : EState) : EState :=
  let s1 :=
    { s with
      cy := if s.cy ≥ s.lines.length then
              (if 0 < s.lines.length then s.lines.length - 1 else 0)
            else s.cy }
  let s2 := if s1.lines = [] then { s1 with lines := [[]], cy := 0, cx := 0 } else s1
  { s2 with cx := min s2.cx (s2.lines.getD s2.cy []).length }

/-- Modelled from the spec: display cell width of a rune as used by
`runewidth.RuneWidth` (a library outside the repository): 2 for wide East
Asian glyphs, 1 otherwise. -/
def runeDisplayWidth (r : Char) : Nat := specDisplayWidth r

/-- Cell offset of the first `k` runes of a segment, expanding tabs to the
next multiple-of-4 stop (display.go lines 234-242). -/
def cellOffset (seg : Line) (k : Nat) : Nat :=
  (seg.take k).foldl
    (fun cw r => if r = '\t' then cw + (4 - cw % 4) else cw + runeDisplayWidth r) 0

/-- Display row of the (already clamped) cursor: rows of all previous lines
plus the index of the segment containing the cursor. -/
def cdpRow (s : EState) : Nat :=
  let totalBefore := ((s.lines.take s.cy).map (fun l => (wrapLine s.contentWidth l).length)).sum
  let segs := wrapLine s.contentWidth (s.lines.getD s.cy [])
  let rec walk : List Line → Nat → Nat → Nat
    | [], segIdx, _ => totalBefore + segIdx - 1
    | seg :: rest, segIdx, segStart =>
      if segStart ≤ s.cx ∧ s.cx ≤ segStart + seg.length then totalBefore + segIdx
      else walk rest (segIdx + 1) (segStart + seg.length)
  walk segs 0 0

/-- The scroll-offset adjustment at the tail of `ensureVisible` (display.go
lines 286-295); it touches only `offsetY`. -/
def scrollFix (s : EState) : EState :=
  let dispIdx := cdpRow s
  let visibleRows := max (s.contentHeight - 4) 1
  if dispIdx < s.offsetY then { s with offsetY := dispIdx }
  else if dispIdx ≥ s.offsetY + visibleRows then
    { s with offsetY := dispIdx + 1 - visibleRows }
  else s

/-- `ensureVisible` (display.go lines 263-296): normalize an empty document,
clamp the cursor, then scroll so the cursor's display row is visible. -/
def ensureVisible (s : EState) : EState :=
  let s1 := if s.lines = [] then { s with lines := [[]], cy := 0, cx := 0 } else s
  let s2 := { s1 with cy := if s1.cy ≥ s1.lines.length then s1.lines.length - 1 else s1.cy }
  let s3 :=
    { s2 with
      cx := if s2.cy < s2.lines.length then min s2.cx (s2.lines.getD s2.cy []).length
            else s2.cx }
  scrollFix (cdpClamp s3)

/-- `pushUndo` (undo.go lines 98-108): snapshot the current buffer, clear
the redo stack, mark dirty. -/
def pushUndo (s : EState) : EState :=
  { s with
    undoStack := ⟨s.lines, s.cx, s.cy⟩ :: s.undoStack
    redoStack := []
    dirty := true }

/-- `undo` (undo.go lines 112-130). -/
def undo (s : EState) : EState :=
  match s.undoStack with
  | [] => s
  | lastState :: rest =>
    ensureVisible
      { s with
        redoStack := ⟨s.lines, s.cx, s.cy⟩ :: s.redoStack
        undoStack := rest
        lines := lastState.lines
        cx := lastState.cx
        cy := lastState.cy }

/-- `redo` (undo.go lines 134-151). -/
def redo (s : EState) : EState :=
  match s.redoStack with
  | [] => s
  | nextState :: rest =>
    ensureVisible
      { s with
        undoStack := ⟨s.lines, s.cx, s.cy⟩ :: s.undoStack
        redoStack := rest
        lines := nextState.lines
        cx := nextState.cx
        cy := nextState.cy }

/-- `insertRune` (undo.go lines 83-96).  Go reads `e.lines[e.cy]` without a
range guard (it panics when `cy` is out of range); the embedding totalizes
that read with `getD` and is only applied to in-range states below. -/
def insertRune (r : Char) (s : EState) : EState :=
  let s1 := pushUndo s
  let row := s1.lines.getD s1.cy []
  { s1 with
    lines := s1.lines.set s1.cy (row.take s1.cx ++ r :: row.drop s1.cx)
    cx := s1.cx + 1
    redoStack := []
    dirty := true }

/-- `persist` (display.go lines 1148-1181): the buffer-visible effect is the
joined content handed to the file system and the cleared dirty flag. -/
def persist (s : EState) : Line × EState :=
  (joinNL s.lines, { s with dirty := false })

/-- Insertion of one line into the slice at an index:
`append(ls[:i], append([]string(x), ls[i:]...)...)`. -/
def insertAt (ls : Doc) (i : Nat) (x : Line) : Doc :=
  ls.take i ++ x :: ls.drop i

/-- `insertTextAtCursor` (display.go lines 299-342). -/
def insertTextAtCursor (text : Line) (s : EState) : EState :=
  let s1 := pushUndo s
  let parts := splitNL text
  if parts = [] then s1
  else
    let lines0 := s1.lines ++ List.replicate (s1.cy + 1 - s1.lines.length) []
    let row := lines0.getD s1.cy []
    let cx0 := min s1.cx row.length
    if parts.length = 1 then
      ensureVisible
        { s1 with
          lines := lines0.set s1.cy (row.take cx0 ++ parts.headD [] ++ row.drop cx0)
          cx := cx0 + (parts.headD []).length
          dirty := true }
    else
      let left := row.take cx0
      let right := row.drop cx0
      let lines1 := lines0.set s1.cy (left ++ parts.headD [])
      let middles := (parts.drop 1).dropLast
      let st := middles.foldl (fun q p => (insertAt q.1 (q.2 + 1) p, q.2 + 1)) (lines1, s1.cy)
      let lastPart := parts.getLastD []
      ensureVisible
        { s1 with
          lines := insertAt st.1 (st.2 + 1) (lastPart ++ right)
          cy := s1.cy + (parts.length - 1)
          cx := lastPart.length
          dirty := true }

/-- `getSelectionRange` (display.go lines 2575-2608). -/
def getSelectionRange (s : EState) : Nat × Nat × Nat × Nat :=
  if s.selecting = false then (0, 0, 0, 0)
  else if s.lineSelecting then
    let startLine := min s.selectStartY s.cy
    let endLine := max s.selectStartY s.cy
    let endCol := if endLine < s.lines.length then (s.lines.getD endLine []).length else 0
    (startLine, 0, endLine, endCol)
  else
    if s.selectStartY > s.cy ∨ (s.selectStartY = s.cy ∧ s.selectStartX > s.cx) then
      (s.cy, s.cx, s.selectStartY, s.selectStartX)
    else
      (s.selectStartY, s.selectStartX, s.cy, s.cx)

/-- `getSelectedText` (display.go lines 1825-1878). -/
def getSelectedText (s : EState) : Line :=
  let q := getSelectionRange s
  let startLine := q.1
  let startCol := q.2.1
  let endLine := q.2.2.1
  let endCol := q.2.2.2
  if startLine = 0 ∧ startCol = 0 ∧ endLine = 0 ∧ endCol = 0 then []
  else
    let selectedLines : List Line :=
      if s.lineSelecting then
        let endLine2 := if endLine ≥ s.lines.length then s.lines.length - 1 else endLine
        let a := min startLine endLine2
        let b := max startLine endLine2
        ((List.range (b + 1 - a)).map (fun i => a + i)).filterMap
          (fun i => if i < s.lines.length then some (s.lines.getD i []) else none)
      else if startLine = endLine then
        if startLine < s.lines.length then
          let row := s.lines.getD startLine []
          if startCol < endCol ∧ endCol ≤ row.length then
            [(row.take endCol).drop startCol]
          else []
        else []
      else
        (if startLine < s.lines.length then
          let firstRow := s.lines.getD startLine []
          if startCol < firstRow.length then [firstRow.drop startCol] else []
        else []) ++
        (((s.lines.take endLine).drop (startLine + 1))) ++
        (if endLine < s.lines.length then
          let lastRow := s.lines.getD endLine []
          if 0 < endCol ∧ endCol ≤ lastRow.length then [lastRow.take endCol] else []
        else [])
    joinNL selectedLines

/-- `endSelection` (display.go lines 2568-2571). -/
def endSelection (s : EState) : EState :=
  { s with selecting := false, lineSelecting := false }

/-- `deleteSelection` (display.go lines 1881-1967), translated branch by
branch; the `< 0` clamps on the Go ints are vacuous on `Nat`. -/
def deleteSelection (s : EState) : EState :=
  if s.selecting = false then s
  else
    let s1 := pushUndo s
    let q := getSelectionRange s1
    let startLine0 := q.1
    let startCol0 := q.2.1
    let endLine0 := q.2.2.1
    let endCol0 := q.2.2.2
    let endLine1 := if endLine0 ≥ s1.lines.length then s1.lines.length - 1 else endLine0
    let startLine := min startLine0 endLine1
    let endLine := max startLine0 endLine1
    let s2 :=
      if s1.lineSelecting then
        let lines2 := s1.lines.take startLine ++ s1.lines.drop (endLine + 1)
        let cy2 := if startLine ≥ lines2.length then lines2.length - 1 else startLine
        { s1 with lines := lines2, cy := cy2, cx := 0 }
      else
        if startLine = endLine then
          if startLine < s1.lines.length then
            let row := s1.lines.getD startLine []
            let endCol := min endCol0 row.length
            let lines2 :=
              if startCol0 < endCol then
                s1.lines.set startLine (row.take startCol0 ++ row.drop endCol)
              else s1.lines
            { s1 with lines := lines2, cx := startCol0, cy := startLine }
          else s1
        else
          if startLine < s1.lines.length ∧ endLine < s1.lines.length then
            let firstRow := s1.lines.getD startLine []
            let lastRow := s1.lines.getD endLine []
            let endCol := min endCol0 lastRow.length
            let lines2 :=
              if startCol0 ≤ firstRow.length then
                s1.lines.take startLine ++
                  (firstRow.take startCol0 ++ lastRow.drop endCol) ::
                    s1.lines.drop (endLine + 1)
              else s1.lines
            { s1 with lines := lines2, cy := startLine, cx := startCol0 }
          else s1
    let s3 := { endSelection s2 with dirty := true, redoStack := [] }
    let s4 := { s3 with cy := if s3.cy ≥ s3.lines.length then s3.lines.length - 1 else s3.cy }
    { s4 with
      cx := if s4.cy < s4.lines.length then min s4.cx (s4.lines.getD s4.cy []).length
            else s4.cx }

/-- `backspace` (display.go lines 1183-1204). -/
def backspace (s : EState) : EState :=
  if 0 < s.cx then
    let s1 := pushUndo s
    let row := s1.lines.getD s1.cy []
    { s1 with
      lines := s1.lines.set s1.cy (row.take (s1.cx - 1) ++ row.drop s1.cx)
      cx := s1.cx - 1
      dirty := true }
  else if 0 < s.cy then
    let s1 := pushUndo s
    let prev := s1.lines.getD (s1.cy - 1) []
    let cur := s1.lines.getD s1.cy []
    let lines2 := (s1.lines.set (s1.cy - 1) (prev ++ cur)).eraseIdx s1.cy
    { s1 with lines := lines2, cy := s1.cy - 1, cx := prev.length, dirty := true }
  else s

/-- `newline` (display.go lines 1208-1218): split the current line at the
cursor, the cursor moves to column 0 of the new second line. -/
def newline (s : EState) : EState :=
  let s1 := pushUndo s
  let row := s1.lines.getD s1.cy []
  { s1 with
    lines := insertAt (s1.lines.set s1.cy (row.take s1.cx)) (s1.cy + 1) (row.drop s1.cx)
    cy := s1.cy + 1
    cx := 0
    dirty := true }

/-- `cutLine` (display.go lines 1051-1076): remove the current line,
collapsing an emptied document to a single empty line; ends with its own
`ensureVisible`.  (The copy of the removed line to the system clipboard and
to `e.clipboard` is an external effect outside the modelled state.) -/
def cutLine (s : EState) : EState :=
  if s.cy < s.lines.length then
    let s1 := pushUndo s
    let lines2 := s1.lines.eraseIdx s1.cy
    let cy2 := if s1.cy ≥ lines2.length ∧ 0 < lines2.length then lines2.length - 1 else s1.cy
    let s2 :=
      if lines2.length = 0 then { s1 with lines := [[]], cy := 0, cx := 0 }
      else
        { s1 with
          lines := lines2
          cy := cy2
          cx := min s1.cx (lines2.getD cy2 []).length }
    ensureVisible { s2 with dirty := true }
  else s

/-- `pasteFromClipboard` (display.go lines 847-893), with the clipboard
content passed in (the clipboard read and its error path are external).
Both `"\r\n"` and lone `"\r"` are normalized, the text is split on
newlines and spliced at the cursor; ends with its own `ensureVisible`. -/
def pasteFromClipboard (text0 : Line) (s : EState) : EState :=
  let text := (replaceCRLF text0).map (fun c => if c = '\r' then '\n' else c)
  let pasteLines := splitNL text
  if pasteLines = [] then s
  else
    let s1 := pushUndo s
    let row := s1.lines.getD s1.cy []
    let cursorX := min s1.cx row.length
    let left := row.take cursorX
    let right := row.drop cursorX
    if pasteLines.length = 1 then
      ensureVisible
        { s1 with
          lines := s1.lines.set s1.cy (left ++ pasteLines.headD [] ++ right)
          cx := cursorX + (pasteLines.headD []).length
          dirty := true
          redoStack := [] }
    else
      let lines1 := s1.lines.set s1.cy (left ++ pasteLines.headD [])
      let st := ((pasteLines.drop 1).dropLast).foldl
        (fun q p => (insertAt q.1 q.2 p, q.2 + 1)) (lines1, s1.cy + 1)
      ensureVisible
        { s1 with
          lines := insertAt st.1 st.2 (pasteLines.getLastD [] ++ right)
          cy := st.2
          cx := (pasteLines.getLastD []).length
          dirty := true
          redoStack := [] }

/-- `startSelection` (display.go lines 2544-2550). -/
def startSelection (s : EState) : EState :=
  if s.selecting = false then
    { s with selecting := true, selectStartX := s.cx, selectStartY := s.cy }
  else s

/-- `startLineSelection` (display.go lines 2554-2565). -/
def startLineSelection (s : EState) : EState :=
  if s.selecting = false then
    { s with
      selecting := true, lineSelecting := true
      selectStartX := s.cx, selectStartY := s.cy }
  else if s.lineSelecting = false then
    { s with lineSelecting := true, selectStartX := s.cx, selectStartY := s.cy }
  else s

/-- A dispatched `tcell.KeyLeft` event: the switch arm (display.go lines
1651-1672; with shift held it starts/extends a line selection, then moves
the cursor left) followed by `handleKey`'s unconditional trailing
`ensureVisible` (display.go line 1820). -/
def keyLeft (shift : Bool) (s : EState) : EState :=
  let s2 :=
    if 0 < s.cx then
      let s1 := if shift then startLineSelection s
                else if s.selecting then endSelection s else s
      { s1 with cx := s1.cx - 1 }
    else if 0 < s.cy then
      let s1 := if shift then startLineSelection s
                else if s.selecting then endSelection s else s
      let prev := s1.lines.getD (s1.cy - 1) []
      ensureVisible { s1 with cy := s1.cy - 1, cx := prev.length }
    else if s.selecting then endSelection s
    else s
  ensureVisible { s2 with ctrlAState := false, ctrlLState := false }

/-- A dispatched `tcell.KeyRight` event: the switch arm (display.go lines
1674-1696) followed by `handleKey`'s trailing `ensureVisible` (display.go
line 1820). -/
def keyRight (shift : Bool) (s : EState) : EState :=
  let row := s.lines.getD s.cy []
  let s2 :=
    if s.cx < row.length then
      let s1 := if shift then startSelection s
                else if s.selecting then endSelection s else s
      { s1 with cx := s1.cx + 1 }
    else if s.cy + 1 < s.lines.length then
      let s1 := if shift then startSelection s
                else if s.selecting then endSelection s else s
      ensureVisible { s1 with cy := s1.cy + 1, cx := 0 }
    else if s.selecting then endSelection s
    else s
  ensureVisible { s2 with ctrlAState := false, ctrlLState := false }

/-- A dispatched `tcell.KeyBackspace` event: the switch arm (display.go
lines 1763-1776; with a selection active it deletes the selection,
otherwise it backspaces) followed by `handleKey`'s trailing `ensureVisible`
(display.go line 1820).  The pending-search clearing path returns from
`handleKey` before the switch completes, so it alone skips the epilogue. -/
def keyBackspace (s : EState) : EState :=
  if s.lastSearch ≠ [] ∧ s.cx = 0 ∧ s.cy = 0 ∧ s.selecting = false then
    { s with lastSearch := [] }
  else
    let s1 := if s.selecting then deleteSelection s else backspace s
    ensureVisible { s1 with ctrlAState := false, ctrlLState := false }

/-- The `tcell.KeyCtrlA` select-all arm of the dispatch switch (display.go
lines 1468-1487): character-mode selection anchored at (0,0) with the
cursor moved to the end of the last line. -/
def selectAllKey (s : EState) : EState :=
  let s1 :=
    if s.selecting = false then
      let s0 := { s with selecting := true, selectStartX := 0, selectStartY := 0 }
      let cy2 := if s0.lines.length = 0 then 0 else s0.lines.length - 1
      let lastLine := if 0 < s0.lines.length then s0.lines.getD cy2 [] else []
      ensureVisible { s0 with cy := cy2, cx := lastLine.length }
    else s
  { s1 with ctrlAState := true }

/-! ## The abstract edit used by the undo/redo claims

An edit operation in the sense of the history claims is: push an undo
snapshot, then mutate the buffer part of the state arbitrarily. -/

/-- A buffer mutation: new (lines, cx, cy) from the old ones. -/
abbrev EditFn := Doc → Nat → Nat → Doc × Nat × Nat

/-- One edit operation: `pushUndo` followed by the mutation (pushUndo
already clears the redo stack and marks the buffer dirty, as every mutating
operation in the source does). -/
def doEdit (f : EditFn) (s : EState) : EState :=
  let s1 := pushUndo s
  let q := f s1.lines s1.cx s1.cy
  { s1 with lines := q.1, cx := q.2.1, cy := q.2.2 }

/-- A sequence of edits applied left to right. -/
def edits (fs : List EditFn) (s : EState) : EState := fs.foldl (fun t f => doEdit f t) s

/-- `undo` applied `n` times. -/
def undoN : Nat → EState → EState
  | 0, s => s
  | n + 1, s => undo (undoN n s)

/-- A convenient fresh state: the shared editing context as `NewEditor`
initializes it (cursor at the origin, clean, empty history, default
115-by-35 content area), with the given document. -/
def mkState (d : Doc) : EState :=
  { lines := d, cx := 0, cy := 0, dirty := false
    undoStack := [], redoStack := []
    selecting := false, lineSelecting := false
    selectStartX := 0, selectStartY := 0
    offsetY := 0, contentWidth := 115, contentHeight := 35
    lastSearch := [], ctrlAState := false, ctrlLState := false }

/-! ## Helper lemmas about the defensive clamps -/

theorem scrollFix_core (s : EState) :
    (scrollFix s).lines = s.lines ∧ (scrollFix s).cx = s.cx ∧ (scrollFix s).cy = s.cy ∧
    (scrollFix s).undoStack = s.undoStack ∧ (scrollFix s).redoStack = s.redoStack ∧
    (scrollFix s).dirty = s.dirty := by
  simp only [scrollFix]
  repeat' split
  all_goals simp

theorem cdpClamp_rest (s : EState) :
    (cdpClamp s).undoStack = s.undoStack ∧ (cdpClamp s).redoStack = s.redoStack ∧
    (cdpClamp s).dirty = s.dirty := by
  simp only [cdpClamp]
  repeat' split
  all_goals simp

theorem scrollClamp_rest (t : EState) :
    (scrollFix (cdpClamp t)).undoStack = t.undoStack ∧
    (scrollFix (cdpClamp t)).redoStack = t.redoStack ∧
    (scrollFix (cdpClamp t)).dirty = t.dirty := by
  have ha := scrollFix_core (cdpClamp t)
  have hb := cdpClamp_rest t
  exact ⟨ha.2.2.2.1.trans hb.1, ha.2.2.2.2.1.trans hb.2.1, ha.2.2.2.2.2.trans hb.2.2⟩

theorem ensureVisible_rest (s : EState) :
    (ensureVisible s).undoStack = s.undoStack ∧
    (ensureVisible s).redoStack = s.redoStack ∧
    (ensureVisible s).dirty = s.dirty := by
  simp only [ensureVisible]
  refine ⟨((scrollClamp_rest _).1).trans ?_, ((scrollClamp_rest _).2.1).trans ?_,
    ((scrollClamp_rest _).2.2).trans ?_⟩
  all_goals split <;> rfl

theorem cdpClamp_of_valid (s : EState) (h : Valid s) : cdpClamp s = s := by
  obtain ⟨h1, h2, h3⟩ := h
  simp only [cdpClamp]
  rw [if_neg (by omega : ¬ s.cy ≥ s.lines.length)]
  rw [if_neg (by simpa using h1)]
  have h3' : s.cx ⊓ (s.lines[s.cy]?.getD []).length = s.cx := by
    simpa [List.getD] using min_eq_left h3
  simp [h3']

theorem scrollClamp_core_of_valid (t : EState) (ht : Valid t) :
    core (scrollFix (cdpClamp t)) = core t := by
  rw [cdpClamp_of_valid t ht]
  have h4 := scrollFix_core t
  simp [core, h4.1, h4.2.1, h4.2.2.1]

theorem ensureVisible_of_valid (s : EState) (h : Valid s) :
    core (ensureVisible s) = core s := by
  obtain ⟨h1, h2, h3⟩ := h
  simp only [ensureVisible]
  rw [if_neg h1]
  rw [if_neg (by omega : ¬ s.cy ≥ s.lines.length)]
  rw [if_pos h2]
  rw [min_eq_left h3]
  exact scrollClamp_core_of_valid _ ⟨h1, h2, h3⟩

/-- The clamps of `cursorDisplayPosition` establish the buffer invariant
from any state whatsoever. -/
theorem cdpClamp_invariant (s : EState) : BufferInvariant (cdpClamp s) := by
  simp only [cdpClamp, BufferInvariant]
  by_cases hnil : s.lines = []
  · simp [hnil]
  · have hpos : 0 < s.lines.length := List.length_pos.mpr hnil
    rw [if_neg hnil]
    refine ⟨hnil, ?_, min_le_right _ _⟩
    by_cases hcy : s.cy ≥ s.lines.length
    · rw [if_pos hcy, if_pos hpos]
      dsimp only
      omega
    · rw [if_neg hcy]
      dsimp only
      omega

/-- `ensureVisible` establishes the buffer invariant from any state: this
is the unconditional repair `handleKey` runs at the end of every dispatched
key event (display.go line 1820), and that canvas switching and search
jumps run after loading a buffer. -/
theorem ensureVisible_invariant (s : EState) : BufferInvariant (ensureVisible s) := by
  have key : ∀ t : EState, BufferInvariant (scrollFix (cdpClamp t)) := by
    intro t
    have hc := cdpClamp_invariant t
    have hs := scrollFix_core (cdpClamp t)
    unfold BufferInvariant at hc ⊢
    rw [hs.1, hs.2.1, hs.2.2.1]
    exact hc
  unfold ensureVisible
  exact key _

/-! ## Undo/redo lemmas -/

theorem undo_stack (s : EState) (snap : Snap) (rest : List Snap)
    (h : s.undoStack = snap :: rest) : (undo s).undoStack = rest := by
  unfold undo
  rw [h]
  exact (ensureVisible_rest _).1

theorem undo_push (s : EState) (snap : Snap) (rest : List Snap)
    (h : s.undoStack = snap :: rest)
    (hv : snap.lines ≠ [] ∧ snap.cy < snap.lines.length ∧
      snap.cx ≤ (snap.lines.getD snap.cy []).length) :
    core (undo s) = (snap.lines, snap.cx, snap.cy) ∧
    (undo s).undoStack = rest ∧
    (undo s).redoStack = ⟨s.lines, s.cx, s.cy⟩ :: s.redoStack := by
  unfold undo
  rw [h]
  refine ⟨?_, (ensureVisible_rest _).1, (ensureVisible_rest _).2.1⟩
  exact ensureVisible_of_valid _ ⟨hv.1, hv.2.1, hv.2.2⟩

theorem redo_push (s : EState) (snap : Snap) (rest : List Snap)
    (h : s.redoStack = snap :: rest)
    (hv : snap.lines ≠ [] ∧ snap.cy < snap.lines.length ∧
      snap.cx ≤ (snap.lines.getD snap.cy []).length) :
    core (redo s) = (snap.lines, snap.cx, snap.cy) ∧
    (redo s).redoStack = rest ∧
    (redo s).undoStack = ⟨s.lines, s.cx, s.cy⟩ :: s.undoStack := by
  unfold redo
  rw [h]
  refine ⟨?_, (ensureVisible_rest _).2.1, (ensureVisible_rest _).1⟩
  exact ensureVisible_of_valid _ ⟨hv.1, hv.2.1, hv.2.2⟩

theorem undo_of_empty (s : EState) (h : s.undoStack = []) : undo s = s := by
  unfold undo
  rw [h]

theorem redo_of_empty (s : EState) (h : s.redoStack = []) : redo s = s := by
  unfold redo
  rw [h]

theorem undoN_edits_stack (fs : List EditFn) :
    ∀ t : EState, (undoN fs.length (edits fs t)).undoStack = t.undoStack := by
  induction fs with
  | nil => intro t; rfl
  | cons f fs ih =>
    intro t
    show (undo (undoN fs.length (edits fs (doEdit f t)))).undoStack = t.undoStack
    exact undo_stack _ ⟨t.lines, t.cx, t.cy⟩ t.undoStack (ih (doEdit f t))

theorem undoN_edits_core (fs : List EditFn) (t : EState) (hne : fs ≠ [])
    (ht : Valid t) : core (undoN fs.length (edits fs t)) = core t := by
  cases fs with
  | nil => exact absurd rfl hne
  | cons f fs =>
    show core (undo (undoN fs.length (edits fs (doEdit f t)))) = core t
    have hst := undoN_edits_stack fs (doEdit f t)
    exact (undo_push _ ⟨t.lines, t.cx, t.cy⟩ t.undoStack hst
      ⟨ht.1, ht.2.1, ht.2.2⟩).1

/-! ## Claim theorems -/

/-- Claim C2: for any valid buffer state and any sequence of n edit
operations (each pushing an undo snapshot before mutating), n undos restore
the exact pre-edit line sequence and cursor; redo immediately after an undo
restores the buffer state that held just before that undo; a new edit
clears the redo stack, making a subsequent redo a no-op; and undo on an
empty undo stack is a no-op. -/
theorem spec_c2 (fs : List EditFn) (f : EditFn) (t u v : EState)
    (ht : Valid t) (hu : Valid u) (hu2 : u.undoStack ≠ []) (hv : v.undoStack = []) :
    core (undoN fs.length (edits fs t)) = core t ∧
    core (redo (undo u)) = core u ∧
    ((doEdit f t).redoStack = [] ∧ redo (doEdit f t) = doEdit f t) ∧
    undo v = v := by
  refine ⟨?_, ?_, ⟨rfl, redo_of_empty _ rfl⟩, undo_of_empty v hv⟩
  · cases fs with
    | nil => rfl
    | cons g gs => exact undoN_edits_core (g :: gs) t (by simp) ht
  · obtain ⟨snap, rest, hsr⟩ : ∃ snap rest, u.undoStack = snap :: rest := by
      cases hul : u.undoStack with
      | nil => exact absurd hul hu2
      | cons a b => exact ⟨a, b, rfl⟩
    have hred : (undo u).redoStack = ⟨u.lines, u.cx, u.cy⟩ :: u.redoStack := by
      unfold undo
      rw [hsr]
      exact (ensureVisible_rest _).2.1
    exact (redo_push (undo u) ⟨u.lines, u.cx, u.cy⟩ u.redoStack hred
      ⟨hu.1, hu.2.1, hu.2.2⟩).1

/-- Witness for C2 at a concrete state, edit list, and stacks. -/
theorem spec_c2_witness :
    Valid (mkState [['a']]) ∧
    Valid { mkState [['a', 'b']] with undoStack := [⟨[['c']], 0, 0⟩] } ∧
    ({ mkState [['a', 'b']] with undoStack := [⟨[['c']], 0, 0⟩] } : EState).undoStack ≠ [] ∧
    (mkState [['d']]).undoStack = [] ∧
    (core (undoN 1 (edits [fun l x y => (l ++ [['q']], x, y)] (mkState [['a']]))) =
        core (mkState [['a']]) ∧
      core (redo (undo { mkState [['a', 'b']] with undoStack := [⟨[['c']], 0, 0⟩] })) =
        core { mkState [['a', 'b']] with undoStack := [⟨[['c']], 0, 0⟩] } ∧
      ((doEdit (fun _ _ _ => ([['z']], 0, 0)) (mkState [['a']])).redoStack = [] ∧
        redo (doEdit (fun _ _ _ => ([['z']], 0, 0)) (mkState [['a']])) =
          doEdit (fun _ _ _ => ([['z']], 0, 0)) (mkState [['a']])) ∧
      undo (mkState [['d']]) = mkState [['d']]) :=
  ⟨by decide, by decide, by decide, rfl,
    spec_c2 [fun l x y => (l ++ [['q']], x, y)] (fun _ _ _ => ([['z']], 0, 0))
      (mkState [['a']]) { mkState [['a', 'b']] with undoStack := [⟨[['c']], 0, 0⟩] }
      (mkState [['d']]) (by decide) (by decide) (by decide) rfl⟩

/-- Claim C3: concatenating the segments of `wrapLine` reproduces the line
exactly, for every line and every content width, and the empty line yields
exactly one empty segment. -/
theorem spec_c3 :
    (∀ (W : Nat) (line : Line), (wrapLine W line).flatten = line) ∧
    (∀ W : Nat, wrapLine W [] = [[]]) := by
  constructor
  · intro W line
    by_cases h : line = []
    · subst h; simp [wrapLine]
    · simp only [wrapLine, if_neg h]
      simpa using wrapAux_join W line [] 0
  · intro W
    simp [wrapLine]

/-- Counterexample to C4 as stated: the code widths a non-space rune by its
UTF-8 byte length, not its display cell width, and a segment opened at a
split keeps the width computed before the split instead of restarting the
tab stop from segment column 0.  At width 2 the line "éa" (é is 1 display
cell but 2 bytes) and at width 3 the line "ab\tcd" both wrap differently
from the claimed rule. -/
theorem spec_c4_counterexample :
    wrapLine 2 ['é', 'a'] ≠ specWrapLine 2 ['é', 'a'] ∧
    wrapLine 3 ['a', 'b', '\t', 'c', 'd'] ≠ specWrapLine 3 ['a', 'b', '\t', 'c', 'd'] ∧
    wrapLine 2 ['é', 'a'] = [['é'], ['a']] ∧
    specWrapLine 2 ['é', 'a'] = [['é', 'a']] ∧
    wrapLine 3 ['a', 'b', '\t', 'c', 'd'] = [['a', 'b'], ['\t', 'c'], ['d']] ∧
    specWrapLine 3 ['a', 'b', '\t', 'c', 'd'] = [['a', 'b'], ['\t'], ['c', 'd']] := by
  decide

/-- Claim C4 as amended: `wrapLine` accumulates runes tracking a width
counter in which a tab advances to the next multiple-of-4 stop of the
counter, non-tab whitespace counts 1 cell, and every other rune counts its
UTF-8 byte length; a segment closes exactly when the incremented counter
would exceed W and the segment is non-empty, and the new segment starts
with the splitting rune at the width computed before the split.  This is
the fold `wrapFold`; the two concrete evaluations document the behaviour on
the counterexample inputs. -/
theorem spec_c4_amended :
    (∀ (W : Nat) (line : Line), wrapLine W line = wrapFold W line) ∧
    wrapLine 2 ['é', 'a'] = [['é'], ['a']] ∧
    wrapLine 3 ['a', 'b', '\t', 'c', 'd'] = [['a', 'b'], ['\t', 'c'], ['d']] := by
  refine ⟨?_, by decide, by decide⟩
  intro W line
  by_cases h : line = []
  · subst h; rfl
  · simp only [wrapLine, wrapFold, if_neg h]
    simpa using (wrapFold_aux W line [] [] 0).symm

/-! Lemmas about line-ending normalization for C5. -/

theorem replaceCRLF_of_no_cr : ∀ cs : Line, '\r' ∉ cs → replaceCRLF cs = cs := by
  intro cs
  induction cs with
  | nil => intro _; rfl
  | cons c rest ih =>
    intro h
    cases rest with
    | nil => rfl
    | cons d rest2 =>
      have hc : c ≠ '\r' := fun he => h (he ▸ List.mem_cons_self c _)
      have hr : '\r' ∉ d :: rest2 := fun hm => h (List.mem_cons_of_mem c hm)
      simp only [replaceCRLF]
      rw [if_neg (by simp [hc])]
      rw [ih hr]

theorem splitNL_of_no_nl : ∀ l : Line, '\n' ∉ l → splitNL l = [l] := by
  intro l
  induction l with
  | nil => intro _; rfl
  | cons c rest ih =>
    intro h
    have hc : c ≠ '\n' := fun he => h (he ▸ List.mem_cons_self c _)
    have hr : '\n' ∉ rest := fun hm => h (List.mem_cons_of_mem c hm)
    simp only [splitNL]
    rw [if_neg hc, ih hr]

theorem splitNL_append (cs : Line) : ∀ l : Line, '\n' ∉ l →
    splitNL (l ++ '\n' :: cs) = l :: splitNL cs := by
  intro l
  induction l with
  | nil =>
    intro _
    simp [splitNL]
  | cons c l2 ih =>
    intro h
    have hc : c ≠ '\n' := fun he => h (he ▸ List.mem_cons_self c _)
    have hr : '\n' ∉ l2 := fun hm => h (List.mem_cons_of_mem c hm)
    simp only [List.cons_append, splitNL]
    simp only [List.append_eq]
    rw [if_neg hc, ih hr]

theorem splitNL_joinNL : ∀ ls : List Line, ls ≠ [] → (∀ l ∈ ls, '\n' ∉ l) →
    splitNL (joinNL ls) = ls := by
  intro ls
  induction ls with
  | nil => intro h _; exact absurd rfl h
  | cons l ls ih =>
    intro _ h
    cases ls with
    | nil => exact splitNL_of_no_nl l (h l (List.mem_cons_self l _))
    | cons l2 ls2 =>
      show splitNL (l ++ '\n' :: joinNL (l2 :: ls2)) = _
      rw [splitNL_append _ l (h l (List.mem_cons_self l _))]
      rw [ih (by simp) (fun x hx => h x (List.mem_cons_of_mem l hx))]

theorem no_cr_joinNL : ∀ ls : List Line, (∀ l ∈ ls, '\r' ∉ l) → '\r' ∉ joinNL ls := by
  intro ls
  induction ls with
  | nil => intro _; simp [joinNL]
  | cons l ls ih =>
    intro h
    cases ls with
    | nil => exact h l (List.mem_cons_self l _)
    | cons l2 ls2 =>
      show '\r' ∉ l ++ '\n' :: joinNL (l2 :: ls2)
      intro hm
      rcases List.mem_append.mp hm with hm1 | hm2
      · exact h l (List.mem_cons_self l _) hm1
      · rcases List.mem_cons.mp hm2 with hm3 | hm4
        · exact absurd hm3 (by decide)
        · exact ih (fun x hx => h x (List.mem_cons_of_mem l hx)) hm4

/-- Counterexample to C5 as stated: a lone carriage return is not
normalized before the content is split into lines, so the loaded line still
contains it; the spec-modelled normalization splits the content instead. -/
theorem spec_c5_counterexample :
    loadLines ['a', '\r', 'b'] = [['a', '\r', 'b']] ∧
    specLoadLines ['a', '\r', 'b'] = [['a'], ['b']] ∧
    loadLines ['a', '\r', 'b'] ≠ specLoadLines ['a', '\r', 'b'] := by
  decide

/-- Claim C5 as amended: on load only `"\r\n"` is normalized to `"\n"`
before the split (a lone `"\r"` stays inside the loaded line), and on save
the lines are rejoined with `"\n"`, so saving and reloading a document
whose lines contain neither newline nor carriage return round-trips
exactly. -/
theorem spec_c5_amended (s : EState) (h1 : s.lines ≠ [])
    (h2 : ∀ l ∈ s.lines, '\n' ∉ l ∧ '\r' ∉ l) :
    loadLines (persist s).1 = s.lines ∧
    loadLines ['a', '\r', '\n', 'b'] = [['a'], ['b']] ∧
    loadLines ['a', '\r', 'b'] = [['a', '\r', 'b']] := by
  refine ⟨?_, by decide, by decide⟩
  have hnr : '\r' ∉ joinNL s.lines := no_cr_joinNL _ (fun l hl => (h2 l hl).2)
  show loadLines (joinNL s.lines) = s.lines
  unfold loadLines
  rw [replaceCRLF_of_no_cr _ hnr]
  exact splitNL_joinNL _ h1 (fun l hl => (h2 l hl).1)

/-- Witness for the amended C5 at a concrete two-line document. -/
theorem spec_c5_amended_witness :
    (mkState [['a'], ['b']]).lines ≠ [] ∧
    (∀ l ∈ (mkState [['a'], ['b']]).lines, '\n' ∉ l ∧ '\r' ∉ l) ∧
    loadLines (persist (mkState [['a'], ['b']])).1 = (mkState [['a'], ['b']]).lines :=
  ⟨by decide, by decide,
    (spec_c5_amended (mkState [['a'], ['b']]) (by decide) (by decide)).1⟩

/-- Counterexample to C6 as stated: starting from a freshly persisted state
(dirty = false, on-disk content `joinNL lines`), one insertion followed by
one undo brings the buffer back to exactly the persisted content, yet the
dirty flag remains true — so dirty is not equivalent to "content differs
from the last persisted state". -/
theorem spec_c6_counterexample :
    (undo (insertRune 'b' (persist (mkState [['a']])).2)).lines =
      (persist (mkState [['a']])).2.lines ∧
    joinNL (undo (insertRune 'b' (persist (mkState [['a']])).2)).lines =
      (persist (mkState [['a']])).1 ∧
    (undo (insertRune 'b' (persist (mkState [['a']])).2)).dirty = true := by
  decide

/-- Claim C6 as amended: the dirty flag is set by every snapshot-pushing
edit and is never recomputed from content — undo and redo leave it
unchanged, so it stays true after undoing back to the persisted content —
and it is cleared exactly by a successful persist. -/
theorem spec_c6_amended (s : EState) (r : Char) (f : EditFn) :
    (persist s).2.dirty = false ∧
    (pushUndo s).dirty = true ∧
    (insertRune r s).dirty = true ∧
    (doEdit f s).dirty = true ∧
    (undo s).dirty = s.dirty ∧
    (redo s).dirty = s.dirty := by
  refine ⟨rfl, rfl, rfl, rfl, ?_, ?_⟩
  · cases hs : s.undoStack with
    | nil => rw [undo_of_empty s hs]
    | cons a b =>
      unfold undo
      rw [hs]
      exact (ensureVisible_rest _).2.2
  · cases hs : s.redoStack with
    | nil => rw [redo_of_empty s hs]
    | cons a b =>
      unfold redo
      rw [hs]
      exact (ensureVisible_rest _).2.2

/-- Claim C1: every state reached through the key-event dispatch loop
satisfies the buffer invariant (non-empty lines, cursor line in range,
cursor column at most the line's rune length).  `handleKey` ends every
dispatched key event with an unconditional `ensureVisible` (display.go line
1820), which establishes the invariant from any state — this covers rune
insertion, newline, paste, cut, delete-selection, undo and redo below, and
equally canvas switch (canvas.go line 47) and search jump (undo.go line
73), both of which call `ensureVisible` after moving the buffer or cursor.
The one dispatch path that returns before the epilogue, Backspace clearing
a pending search, does not touch the buffer, so it preserves the
invariant. -/
theorem spec_c1 (s : EState) (r : Char) (text : Line) :
    BufferInvariant (ensureVisible s) ∧
    BufferInvariant (ensureVisible (insertRune r s)) ∧
    BufferInvariant (ensureVisible (newline s)) ∧
    BufferInvariant (ensureVisible (pasteFromClipboard text s)) ∧
    BufferInvariant (ensureVisible (cutLine s)) ∧
    BufferInvariant (ensureVisible (deleteSelection s)) ∧
    BufferInvariant (ensureVisible (undo s)) ∧
    BufferInvariant (ensureVisible (redo s)) ∧
    BufferInvariant (ensureVisible (insertTextAtCursor text s)) ∧
    (BufferInvariant s → BufferInvariant (keyBackspace s)) := by
  refine ⟨ensureVisible_invariant _, ensureVisible_invariant _, ensureVisible_invariant _,
    ensureVisible_invariant _, ensureVisible_invariant _, ensureVisible_invariant _,
    ensureVisible_invariant _, ensureVisible_invariant _, ensureVisible_invariant _, ?_⟩
  intro hs
  unfold keyBackspace
  split
  · exact hs
  · exact ensureVisible_invariant _

/-- Witness for C1 at concrete states, including the whole-document
line-mode deletion (Shift+Left then Backspace on ["a"]): the dispatch
epilogue repairs the transiently emptied document to a single empty line
before the cycle ends. -/
theorem spec_c1_witness :
    BufferInvariant (keyLeft true (keyRight false (mkState [['a']]))) ∧
    BufferInvariant (keyBackspace (keyLeft true (keyRight false (mkState [['a']])))) ∧
    (keyBackspace (keyLeft true (keyRight false (mkState [['a']])))).lines = [[]] :=
  ⟨by decide,
    (spec_c1 (keyLeft true (keyRight false (mkState [['a']]))) 'b'
      []).2.2.2.2.2.2.2.2.2 (by decide),
    by decide⟩

/-- Claim C9: with a selection active, `getSelectionRange` returns a range
whose start is at most its end in document order, whatever the gesture
direction; and in line mode the start column is 0 and the end column is the
rune length of the end line (which the code reads only when that line
exists). -/
theorem spec_c9 (s : EState) (h : s.selecting = true) :
    ((getSelectionRange s).1 < (getSelectionRange s).2.2.1 ∨
      ((getSelectionRange s).1 = (getSelectionRange s).2.2.1 ∧
        (getSelectionRange s).2.1 ≤ (getSelectionRange s).2.2.2)) ∧
    (s.lineSelecting = true → (getSelectionRange s).2.2.1 < s.lines.length →
      (getSelectionRange s).2.1 = 0 ∧
      (getSelectionRange s).2.2.2 =
        (s.lines.getD ((getSelectionRange s).2.2.1) []).length) := by
  have hsel : ¬ (s.selecting = false) := by rw [h]; simp
  unfold getSelectionRange
  rw [if_neg hsel]
  cases hb : s.lineSelecting with
  | true =>
    rw [if_pos rfl]
    constructor
    · have hmm : min s.selectStartY s.cy ≤ max s.selectStartY s.cy := min_le_max
      dsimp only
      omega
    · intro _ hlen
      dsimp only at hlen ⊢
      rw [if_pos hlen]
      exact ⟨rfl, rfl⟩
  | false =>
    rw [if_neg (by simp)]
    constructor
    · split
      next hcond => dsimp only; omega
      next hcond => dsimp only; omega
    · intro habs
      exact absurd habs (by simp)

/-- Witness for C9: anchor after the cursor, line mode, two-line document. -/
theorem spec_c9_witness :
    ({ mkState [['a'], ['b', 'c']] with
        selecting := true, lineSelecting := true, selectStartY := 1 } : EState).selecting
      = true ∧
    ((getSelectionRange { mkState [['a'], ['b', 'c']] with
        selecting := true, lineSelecting := true, selectStartY := 1 }).1 <
      (getSelectionRange { mkState [['a'], ['b', 'c']] with
        selecting := true, lineSelecting := true, selectStartY := 1 }).2.2.1 ∨
      ((getSelectionRange { mkState [['a'], ['b', 'c']] with
          selecting := true, lineSelecting := true, selectStartY := 1 }).1 =
        (getSelectionRange { mkState [['a'], ['b', 'c']] with
          selecting := true, lineSelecting := true, selectStartY := 1 }).2.2.1 ∧
        (getSelectionRange { mkState [['a'], ['b', 'c']] with
          selecting := true, lineSelecting := true, selectStartY := 1 }).2.1 ≤
        (getSelectionRange { mkState [['a'], ['b', 'c']] with
          selecting := true, lineSelecting := true, selectStartY := 1 }).2.2.2)) :=
  ⟨rfl,
    (spec_c9 { mkState [['a'], ['b', 'c']] with
      selecting := true, lineSelecting := true, selectStartY := 1 } rfl).1⟩

/-- Counterexample to C10 as stated: an active character selection collapsed
at line 0 column 1 normalizes to the quadruple (0,1,0,1), which differs
from the sentinel (0,0,0,0), yet `getSelectedText` still returns the empty
string — "empty exactly when the quadruple is (0,0,0,0)" fails. -/
theorem spec_c10_counterexample :
    getSelectionRange { mkState [['a']] with
        selecting := true, selectStartX := 1, cx := 1 } = (0, 1, 0, 1) ∧
    getSelectionRange { mkState [['a']] with
        selecting := true, selectStartX := 1, cx := 1 } ≠ (0, 0, 0, 0) ∧
    getSelectedText { mkState [['a']] with
        selecting := true, selectStartX := 1, cx := 1 } = [] := by
  decide

/-- Claim C10 as amended: with no selection active `getSelectionRange`
returns the sentinel (0,0,0,0); whenever the quadruple is (0,0,0,0) the
selected text is empty (the converse fails: degenerate collapsed selections
also produce empty text with a non-sentinel quadruple); and select-all on
an empty single-line document normalizes to (0,0,0,0) and is thus
indistinguishable from no selection, with empty selected text. -/
theorem spec_c10_amended :
    (∀ s : EState, s.selecting = false → getSelectionRange s = (0, 0, 0, 0)) ∧
    (∀ s : EState, getSelectionRange s = (0, 0, 0, 0) → getSelectedText s = []) ∧
    (getSelectionRange (selectAllKey (mkState [[]])) = (0, 0, 0, 0) ∧
      getSelectedText (selectAllKey (mkState [[]])) = []) := by
  refine ⟨?_, ?_, by decide, by decide⟩
  · intro s hs
    unfold getSelectionRange
    rw [hs]
    rfl
  · intro s hq
    simp [getSelectedText, hq]

/-- Witness for the amended C10 at a concrete inactive-selection state. -/
theorem spec_c10_amended_witness :
    (mkState [['a']]).selecting = false ∧
    getSelectionRange (mkState [['a']]) = (0, 0, 0, 0) ∧
    getSelectedText (mkState [['a']]) = [] :=
  ⟨rfl, spec_c10_amended.1 (mkState [['a']]) rfl,
    spec_c10_amended.2.1 (mkState [['a']]) (spec_c10_amended.1 (mkState [['a']]) rfl)⟩

/-! Lemmas relating the embedded forward bracket scan to its spec model. -/

theorem specScan_append (op cl : Char) (ys : List (Nat × Nat × Char)) :
    ∀ (xs : List (Nat × Nat × Char)) (n : Nat),
      specScan op cl (xs ++ ys) n =
        match specScan op cl xs n with
        | (some p, m) => (some p, m)
        | (none, m) => specScan op cl ys m := by
  intro xs
  induction xs with
  | nil => intro n; rfl
  | cons p xs ih =>
    intro n
    simp only [List.cons_append, specScan]
    by_cases h1 : p.2.2 = op
    · rw [if_pos h1, if_pos h1]
      exact ih (n + 1)
    · rw [if_neg h1, if_neg h1]
      by_cases h2 : p.2.2 = cl
      · rw [if_pos h2, if_pos h2]
        by_cases h3 : n = 1
        · rw [if_pos h3, if_pos h3]
        · rw [if_neg h3, if_neg h3]
          exact ih (n - 1)
      · rw [if_neg h2, if_neg h2]
        exact ih n

theorem scanRowF_spec (op cl : Char) (li : Nat) :
    ∀ (cs : List Char) (c0 n : Nat),
      specScan op cl (rowPositions li cs c0) n =
        (match scanRowF op cl cs c0 n with
         | .found c => (some (li, c), 0)
         | .cont m => (none, m)) := by
  intro cs
  induction cs with
  | nil => intro c0 n; rfl
  | cons c rest ih =>
    intro c0 n
    have hrow : rowPositions li (c :: rest) c0 = (li, c0, c) :: rowPositions li rest (c0 + 1) := by
      simp [rowPositions, List.enumFrom]
    rw [hrow]
    dsimp only [specScan, scanRowF]
    by_cases h1 : c = op
    · rw [if_pos h1, if_pos h1]
      exact ih (c0 + 1) (n + 1)
    · rw [if_neg h1, if_neg h1]
      by_cases h2 : c = cl
      · rw [if_pos h2, if_pos h2]
        by_cases h3 : n = 1
        · rw [if_pos h3, if_pos h3]
        · rw [if_neg h3, if_neg h3]
          exact ih (c0 + 1) (n - 1)
      · rw [if_neg h2, if_neg h2]
        exact ih (c0 + 1) n

theorem scanDocRows_spec (op cl : Char) :
    ∀ (rows : List Line) (li n : Nat),
      (specScan op cl ((rows.enumFrom li).flatMap (fun p => rowPositions p.1 p.2 0)) n).1 =
        scanDocRows op cl rows li n := by
  intro rows
  induction rows with
  | nil => intro li n; rfl
  | cons row rest ih =>
    intro li n
    have he : ((row :: rest).enumFrom li) = (li, row) :: rest.enumFrom (li + 1) := by
      simp [List.enumFrom]
    rw [he, List.flatMap_cons, specScan_append, scanRowF_spec op cl li row 0 n]
    simp only [scanDocRows]
    cases hsc : scanRowF op cl row 0 n with
    | found c => rfl
    | cont m => exact ih (li + 1) m

theorem findClosing_spec (lines : Doc) (sl sc : Nat) (op cl : Char) :
    findClosingBracket lines sl sc op cl = specFindClose lines sl sc op cl := by
  unfold findClosingBracket specFindClose
  by_cases h1 : sl < lines.length
  · rw [if_pos h1, if_pos h1]
    by_cases h2 : sc < (lines.getD sl []).length
    · rw [if_pos h2, if_pos h2]
      unfold docPositions
      rw [specScan_append, scanRowF_spec op cl sl ((lines.getD sl []).drop (sc + 1)) (sc + 1) 1]
      cases hsc : scanRowF op cl ((lines.getD sl []).drop (sc + 1)) (sc + 1) 1 with
      | found c => rfl
      | cont m =>
        rw [scanDocRows_spec op cl (lines.drop (sl + 1)) (sl + 1) m]
    · rw [if_neg h2, if_neg h2]
  · rw [if_neg h1, if_neg h1]

/-- Claim C8: the forward scan from an opening bracket is exactly the
spec's nesting-counter scan over the rune stream after the start (counter
from 1, wrapping across lines, pair returned exactly when the counter
reaches 0, `none` when the stream is exhausted); on the one-line document
"(a(b)c)" the query at column 0 returns the close at column 6 and the query
at column 6 returns the open at column 0; and an unbalanced document yields
`none` rather than an error. -/
theorem spec_c8 :
    (∀ (lines : Doc) (sl sc : Nat) (op cl : Char),
      findClosingBracket lines sl sc op cl = specFindClose lines sl sc op cl) ∧
    findMatchingBracket [['(', 'a', '(', 'b', ')', 'c', ')']] 0 0 = some ⟨0, 0, 0, 6⟩ ∧
    findMatchingBracket [['(', 'a', '(', 'b', ')', 'c', ')']] 0 6 = some ⟨0, 0, 0, 6⟩ ∧
    findMatchingBracket [['(', 'a']] 0 0 = none :=
  ⟨findClosing_spec, by decide, by decide, by decide⟩

/-! Lemmas for multi-line insertion (C7). -/

theorem foldl_insertAt (ms : List Line) :
    ∀ (P Q : Doc) (k : Nat), P.length = k + 1 →
      (ms.foldl (fun q p => (insertAt q.1 (q.2 + 1) p, q.2 + 1)) (P ++ Q, k)) =
        (P ++ ms ++ Q, k + ms.length) := by
  induction ms with
  | nil => intro P Q k h; simp
  | cons m ms ih =>
    intro P Q k h
    simp only [List.foldl_cons]
    have hins : insertAt (P ++ Q) (k + 1) m = (P ++ [m]) ++ Q := by
      unfold insertAt
      rw [← h, List.take_left, List.drop_left]
      simp
    rw [hins, ih (P ++ [m]) Q (k + 1) (by simp [h])]
    refine Prod.ext ?_ ?_
    · simp
    · simp [Nat.add_assoc]
      omega

theorem core_fields_eq {a b : EState} (h : core a = core b) :
    a.lines = b.lines ∧ a.cx = b.cx ∧ a.cy = b.cy :=
  ⟨congrArg Prod.fst h, congrArg (fun q => q.2.1) h, congrArg (fun q => q.2.2) h⟩

theorem insertAt_exact (P M D : Doc) (y : Line) (k : Nat) (hP : P.length = k + 1) :
    insertAt (P ++ M ++ D) (k + M.length + 1) y = P ++ M ++ y :: D := by
  have hE : (P ++ M).length = k + M.length + 1 := by
    simp [hP]
    omega
  unfold insertAt
  rw [List.take_left' hE, List.drop_left' hE]

/-- Claim C7: inserting a multi-line text at the cursor splits it on
newlines; the first segment is appended to the left part of the current
line, middle segments become new lines, the last segment is prefixed to the
right part of the current line, and the cursor ends at the end of the
inserted content (line `cy + segments - 1`, column = rune length of the last
segment). -/
theorem spec_c7 (s : EState) (text : Line)
    (hcy : s.cy < s.lines.length)
    (hcx : s.cx ≤ (s.lines.getD s.cy []).length)
    (hp : 2 ≤ (splitNL text).length) :
    (insertTextAtCursor text s).lines =
      s.lines.take s.cy ++
        ((s.lines.getD s.cy []).take s.cx ++ (splitNL text).headD []) ::
          (((splitNL text).drop 1).dropLast ++
            ((splitNL text).getLastD [] ++ (s.lines.getD s.cy []).drop s.cx) ::
              s.lines.drop (s.cy + 1)) ∧
    (insertTextAtCursor text s).cy = s.cy + ((splitNL text).length - 1) ∧
    (insertTextAtCursor text s).cx = ((splitNL text).getLastD []).length := by
  have hne : splitNL text ≠ [] := by
    intro h; rw [h] at hp; simp at hp
  have hn1 : ¬ (splitNL text).length = 1 := by omega
  have hrep : s.cy + 1 - s.lines.length = 0 := by omega
  simp only [insertTextAtCursor]
  rw [if_neg hne]
  dsimp only [pushUndo]
  rw [hrep]
  simp only [List.replicate, List.append_nil]
  rw [if_neg hn1]
  rw [min_eq_left hcx]
  have hset : s.lines.set s.cy
        ((s.lines.getD s.cy []).take s.cx ++ (splitNL text).headD []) =
      (s.lines.take s.cy ++ [(s.lines.getD s.cy []).take s.cx ++ (splitNL text).headD []]) ++
        s.lines.drop (s.cy + 1) := by
    rw [List.set_eq_take_cons_drop _ hcy]
    simp
  rw [hset]
  have hPlen : (s.lines.take s.cy ++
      [(s.lines.getD s.cy []).take s.cx ++ (splitNL text).headD []]).length = s.cy + 1 := by
    simp [List.length_take]
    omega
  rw [foldl_insertAt _ _ _ _ hPlen]
  have hmlen : (((splitNL text).drop 1).dropLast).length = (splitNL text).length - 2 := by
    simp [List.length_dropLast, List.length_drop]
    omega
  dsimp only
  rw [insertAt_exact
    (s.lines.take s.cy ++
      [(s.lines.getD s.cy []).take s.cx ++ (splitNL text).headD []])
    (((splitNL text).drop 1).dropLast) (s.lines.drop (s.cy + 1))
    ((splitNL text).getLastD [] ++ (s.lines.getD s.cy []).drop s.cx) s.cy hPlen]
  -- the buffer part of the state handed to ensureVisible is valid
  have hvalid : Valid
      { s with
        lines := s.lines.take s.cy ++
            [(s.lines.getD s.cy []).take s.cx ++ (splitNL text).headD []] ++
          ((splitNL text).drop 1).dropLast ++
            ((splitNL text).getLastD [] ++ (s.lines.getD s.cy []).drop s.cx) ::
              s.lines.drop (s.cy + 1)
        cx := ((splitNL text).getLastD []).length
        cy := s.cy + ((splitNL text).length - 1)
        dirty := true
        undoStack := ⟨s.lines, s.cx, s.cy⟩ :: s.undoStack
        redoStack := [] } := by
    refine ⟨by simp, ?_, ?_⟩
    · simp only [List.length_append, List.length_cons, List.length_take, hmlen]
      omega
    · have hidx : (s.lines.take s.cy ++
          [(s.lines.getD s.cy []).take s.cx ++ (splitNL text).headD []] ++
            ((splitNL text).drop 1).dropLast).length ≤
          s.cy + ((splitNL text).length - 1) := by
        simp only [List.length_append, hPlen, hmlen]
        omega
      simp only [List.getD_append_right _ _ _ _ hidx]
      have hz : s.cy + ((splitNL text).length - 1) -
          (s.lines.take s.cy ++
            [(s.lines.getD s.cy []).take s.cx ++ (splitNL text).headD []] ++
              ((splitNL text).drop 1).dropLast).length = 0 := by
        simp only [List.length_append, hPlen, hmlen]
        omega
      rw [hz]
      simp
  have hev := core_fields_eq (ensureVisible_of_valid _ hvalid)
  refine ⟨?_, ?_, ?_⟩
  · rw [hev.1]
    simp [List.append_assoc]
  · exact hev.2.2
  · exact hev.2.1

/-- Witness for C7: the spec's Scenario 5 — inserting "x\ny\nz" at column 2
of the single line "ab" yields ["abx","y","z"] with the cursor at the end
of "z". -/
theorem spec_c7_witness :
    ({ mkState [['a', 'b']] with cx := 2 } : EState).cy <
      ({ mkState [['a', 'b']] with cx := 2 } : EState).lines.length ∧
    ({ mkState [['a', 'b']] with cx := 2 } : EState).cx ≤
      (({ mkState [['a', 'b']] with cx := 2 } : EState).lines.getD
        ({ mkState [['a', 'b']] with cx := 2 } : EState).cy []).length ∧
    2 ≤ (splitNL ['x', '\n', 'y', '\n', 'z']).length ∧
    (insertTextAtCursor ['x', '\n', 'y', '\n', 'z']
        { mkState [['a', 'b']] with cx := 2 }).lines = [['a', 'b', 'x'], ['y'], ['z']] ∧
    (insertTextAtCursor ['x', '\n', 'y', '\n', 'z']
        { mkState [['a', 'b']] with cx := 2 }).cy = 2 ∧
    (insertTextAtCursor ['x', '\n', 'y', '\n', 'z']
        { mkState [['a', 'b']] with cx := 2 }).cx = 1 := by
  refine ⟨by decide, by decide, by decide, ?_, ?_, ?_⟩
  · have h := (spec_c7 { mkState [['a', 'b']] with cx := 2 } ['x', '\n', 'y', '\n', 'z']
      (by decide) (by decide) (by decide)).1
    rw [h]
    decide
  · have h := (spec_c7 { mkState [['a', 'b']] with cx := 2 } ['x', '\n', 'y', '\n', 'z']
      (by decide) (by decide) (by decide)).2.1
    rw [h]
    decide
  · have h := (spec_c7 { mkState [['a', 'b']] with cx := 2 } ['x', '\n', 'y', '\n', 'z']
      (by decide) (by decide) (by decide)).2.2
    rw [h]
    decide

end TEd
